import Mathlib

/-!
Verification of the wildfire burn-severity pipeline (funcs.py).

Modelling conventions: machine reals (Earth-Engine pixel values, Python
floats) are modelled as rationals; calendar dates as day counts since
1970-01-01 obtained from the standard civil-calendar correspondence; the
ambient `random` source used by the burn-severity repair pass as an
explicit stream of draws; disk state of the exporter as the presence of
the two paths it touches (raster.tif, raster.zip).
-/

/-- Burn-severity classification expression applied to the dNBR band
(prepImages): ordered ternary cascade with a trailing pseudo-mask 0. -/
def burnSeverity (dNBR : ℚ) : ℤ :=
  if dNBR > 425 then 5
  else if dNBR > 225 then 4
  else if dNBR > 100 then 3
  else if dNBR > -60 then 2
  else if dNBR ≤ -60 then 1
  else 0

/-- Land-cover simplification expression applied to the NLCD landcover band
(prepImages; the model variant and the viz variant use this identical
cascade). -/
def landCover (landcover : ℚ) : ℚ :=
  if landcover > 90 then 1
  else if landcover > 80 then 6
  else if landcover > 70 then 5
  else if landcover > 50 then 4
  else if landcover > 40 then 3
  else if landcover > 30 then 1
  else if landcover > 20 then 2
  else if landcover > 10 then 1
  else 0

/-- The pair of dates derived by prepImages for the post-fire query:
the shifted start passed to filterDate and the adjusted end date. -/
structure Windows where
  shiftedStart : ℤ
  adjustedEnd : ℤ
deriving DecidableEq

/-- Date-window tiering of prepImages, on dates represented as day counts.
The Python code compares endDate - startDate against timedelta(days, 90)
and timedelta(days, 60), which on dates is exactly integer day arithmetic. -/
def prepWindows (startDate endDate : ℤ) : Windows :=
  if endDate - startDate ≥ 90 then ⟨endDate - 60, endDate + 20⟩
  else if endDate - startDate ≥ 60 then ⟨endDate - 40, endDate + 30⟩
  else ⟨endDate + 1, endDate + 60⟩

/-- Day count since 1970-01-01 of a proleptic-Gregorian civil date,
the arithmetic underlying Python date subtraction and timedelta shifts. -/
def daysFromCivil (y m d : ℤ) : ℤ :=
  let y2 := if m ≤ 2 then y - 1 else y
  let era := Int.ediv y2 400
  let yoe := y2 - era * 400
  let mp := Int.emod (m + 9) 12
  let doy := Int.ediv (153 * mp + 2) 5 + d - 1
  let doe := yoe * 365 + Int.ediv yoe 4 - Int.ediv yoe 100 + doy
  era * 146097 + doe - 719468

/-- Band order produced by the image assembly in prepImages:
postFireImage.select of the seven SR_B bands, then addBands of
burnSeverity, dNBR, NDVI, elevation, percent_tree_cover, landCover,
landCoverViz, in that order. -/
def assemblerBandOrder : List String :=
  ["SR_B1", "SR_B2", "SR_B3", "SR_B4", "SR_B5", "SR_B6", "SR_B7",
   "burnSeverity", "dNBR", "NDVI", "elevation",
   "percent_tree_cover", "landCover", "landCoverViz"]

/-- Column names assigned to the flattened raster bands in downloadRaster. -/
def colNames : List String :=
  ["SR_B1", "SR_B2", "SR_B3", "SR_B4", "SR_B5", "SR_B6", "SR_B7",
   "burnSeverity", "dNBR", "NDVI", "elevation",
   "percent_tree_cover", "landCover", "landCoverViz"]

/-- Modelled from the spec: the fixed ordered 14-entry Band Catalogue of
section 3 (seven raw reflectance bands, burn severity, dNBR, NDVI,
elevation, tree-cover percent, land-cover model, land-cover viz), stated
from the spec text for comparison against the code-side orders. -/
def bandCatalogueSpec : List String :=
  ["SR_B1", "SR_B2", "SR_B3", "SR_B4", "SR_B5", "SR_B6", "SR_B7",
   "burnSeverity", "dNBR", "NDVI", "elevation",
   "percent_tree_cover", "landCover", "landCoverViz"]

/-- Mean of the present entries of a column, as pandas mean with skipna:
none when every entry is missing. -/
def meanOpt (col : List (Option ℚ)) : Option ℚ :=
  let present := col.filterMap id
  if present.length = 0 then none
  else some (present.sum / (present.length : ℚ))

/-- Pandas fillna with the column mean: replaces missing entries by the mean
of the present ones; a column whose mean is itself missing (no present
entry) is left unchanged. -/
def fillna (col : List (Option ℚ)) : List (Option ℚ) :=
  match meanOpt col with
  | none => col
  | some m => col.map (fun x => some (x.getD m))

/-- Numpy and pandas rounding to the nearest integer, half to even. -/
def roundHalfEven (x : ℚ) : ℤ :=
  let f := ⌊x⌋
  let r := x - (f : ℚ)
  if r < 1 / 2 then f
  else if 1 / 2 < r then f + 1
  else if f % 2 = 0 then f else f + 1

/-- Pandas round to two decimal places. -/
def round2 (x : ℚ) : ℚ := (roundHalfEven (100 * x) : ℚ) / 100

/-- Rounding to two decimals applied entrywise to a column. -/
def round2Col (col : List (Option ℚ)) : List (Option ℚ) :=
  col.map (Option.map round2)

/-- Integer cast of one value as pandas astype int: truncation toward 0. -/
def truncQ (x : ℚ) : ℤ := if 0 ≤ x then ⌊x⌋ else ⌈x⌉

/-- The repair pass of downloadRaster on the burnSeverity column: each
present entry at most 0 is replaced, in row order, by the next draw of
random.sample over the population [1, 2, 3, 4, 5]; a missing entry is not
replaced, since a pandas NaN compares false against 0. The draws are
modelled as a stream rng of five-way choices. -/
def repairBS (rng : ℕ → Fin 5) : ℕ → List (Option ℚ) → List (Option ℚ)
  | _, [] => []
  | k, none :: xs => none :: repairBS rng k xs
  | k, some v :: xs =>
    if v ≤ 0 then some (((rng k : ℕ) : ℚ) + 1) :: repairBS rng (k + 1) xs
    else some v :: repairBS rng k xs

/-- astype int on one column: truncates every entry; fails on a missing
entry, as pandas astype raises on non-finite values and no table results. -/
def astypeCol : List (Option ℚ) → Option (List ℤ)
  | [] => some []
  | none :: _ => none
  | some v :: xs => (astypeCol xs).map (fun l => truncQ v :: l)

/-- astype int on the whole table, columnwise. -/
def astypeTable : List (List (Option ℚ)) → Option (List (List ℤ))
  | [] => some []
  | c :: cs =>
    match astypeCol c with
    | none => none
    | some l => (astypeTable cs).map (fun t => l :: t)

/-- Mean-imputation followed by rounding to two decimals, columnwise:
df.fillna of df.mean, then round of 2. -/
def imputeRound (bands : List (List (Option ℚ))) : List (List (Option ℚ)) :=
  bands.map (fun c => round2Col (fillna c))

/-- The burnSeverity repair applied to the column at position 7 (counting
from i), every other column kept unchanged. -/
def repairColsAux (rng : ℕ → Fin 5) (i : ℕ) :
    List (List (Option ℚ)) → List (List (Option ℚ))
  | [] => []
  | c :: cs =>
    (if i = 7 then repairBS rng 0 c else c) :: repairColsAux rng (i + 1) cs

/-- The burnSeverity repair applied at column index 7 of the table. -/
def repairCols (rng : ℕ → Fin 5) (cols : List (List (Option ℚ))) :
    List (List (Option ℚ)) :=
  repairColsAux rng 0 cols

/-- Raster-to-table conversion of downloadRaster on the flattened bands:
mean-impute and round each column, repair the burnSeverity column at
index 7, then cast every column to int; none when the cast fails. -/
def toTable (rng : ℕ → Fin 5) (bands : List (List (Option ℚ))) :
    Option (List (List ℤ)) :=
  astypeTable (repairCols rng (imputeRound bands))

/-- C1: the burn-severity classifier is total on real dNBR, first-match-wins,
returning exactly one class in one..five by the stated tiering, and the
trailing 0 branch is unreachable for numeric input. -/
theorem c1_burnSeverity_total (x : ℚ) :
    burnSeverity x = (if x > 425 then 5 else if x > 225 then 4
      else if x > 100 then 3 else if x > -60 then 2 else 1)
    ∧ burnSeverity x ≠ 0
    ∧ burnSeverity x ∈ ({1, 2, 3, 4, 5} : Finset ℤ) := by
  unfold burnSeverity
  split_ifs with h1 h2 h3 h4 h5
  · exact ⟨rfl, by decide, by decide⟩
  · exact ⟨rfl, by decide, by decide⟩
  · exact ⟨rfl, by decide, by decide⟩
  · exact ⟨rfl, by decide, by decide⟩
  · exact ⟨rfl, by decide, by decide⟩
  · exact absurd (not_lt.mp h4) h5

/-- C7 counterexample: the land-cover expression is not idempotent; 95 is a
declared NLCD code (wetland), classified to 1, and reapplying the expression
to 1 yields 0, not 1. -/
theorem c7_counterexample :
    landCover (landCover 95) ≠ landCover 95
    ∧ landCover 95 = 1 ∧ landCover (landCover 95) = 0 := by
  refine ⟨?_, ?_, ?_⟩ <;> norm_num [landCover]

/-- Every class code produced by the land-cover expression is at most 6. -/
theorem landCover_le_six (v : ℚ) : landCover v ≤ 6 := by
  unfold landCover
  split_ifs <;> norm_num

/-- C7 (amended): the land-cover expression is not idempotent; since every
output class code is at most 6, a second application falls through every
threshold (all of which exceed 10) and returns 0 on all inputs. -/
theorem c7_landCover_reapply_zero (v : ℚ) :
    landCover (landCover v) = 0 := by
  have h : landCover v ≤ 6 := landCover_le_six v
  set y := landCover v with hy
  unfold landCover
  split_ifs <;> first | rfl | linarith

/-- C3 counterexample: in the documented scenario start 2020-08-01,
end 2020-08-20 (19 elapsed days), the adjusted end is end plus 60 days,
which is 2020-10-19, not 2020-09-19 as claimed; the shifted start
2020-08-21 is as claimed. -/
theorem c3_counterexample :
    (prepWindows (daysFromCivil 2020 8 1) (daysFromCivil 2020 8 20)).adjustedEnd
      ≠ daysFromCivil 2020 9 19
    ∧ (prepWindows (daysFromCivil 2020 8 1) (daysFromCivil 2020 8 20)).shiftedStart
      = daysFromCivil 2020 8 21
    ∧ (prepWindows (daysFromCivil 2020 8 1) (daysFromCivil 2020 8 20)).adjustedEnd
      = daysFromCivil 2020 10 19 := by
  refine ⟨by decide, by decide, by decide⟩

/-- C3 (amended): the window selector realises exactly the three documented
tiers on elapsed days, and in the scenario start 2020-08-01, end 2020-08-20
(19 elapsed days) it returns shifted start 2020-08-21 and adjusted end
2020-10-19 (end plus 60 days). -/
theorem c3_window_tiers (s e : ℤ) :
    (e - s ≥ 90 → prepWindows s e = ⟨e - 60, e + 20⟩)
    ∧ (60 ≤ e - s ∧ e - s < 90 → prepWindows s e = ⟨e - 40, e + 30⟩)
    ∧ (e - s < 60 → prepWindows s e = ⟨e + 1, e + 60⟩)
    ∧ (prepWindows (daysFromCivil 2020 8 1) (daysFromCivil 2020 8 20)
        = ⟨daysFromCivil 2020 8 21, daysFromCivil 2020 10 19⟩)
    ∧ daysFromCivil 2020 8 20 - daysFromCivil 2020 8 1 = 19 := by
  refine ⟨?_, ?_, ?_, by decide, by decide⟩ <;>
    intro h <;> unfold prepWindows <;> split_ifs <;>
    first | rfl | (exfalso; omega)

/-- Witness for c3_window_tiers at concrete inputs. -/
theorem c3_window_tiers_witness :
    prepWindows 0 100 = ⟨100 - 60, 100 + 20⟩ :=
  (c3_window_tiers 0 100).1 (by decide)

/-- C4 counterexample: with start 2020-08-01 and end 2020-08-20
(start strictly before end), the shifted start exceeds the user-supplied
nominal end, violating the claimed invariant shiftedStart at most end. -/
theorem c4_counterexample :
    daysFromCivil 2020 8 1 < daysFromCivil 2020 8 20
    ∧ ¬ ((prepWindows (daysFromCivil 2020 8 1)
          (daysFromCivil 2020 8 20)).shiftedStart
        ≤ daysFromCivil 2020 8 20) := by
  refine ⟨by decide, by decide⟩

/-- C4 (amended): for start strictly before end, the shifted start is at
least start and at most the adjusted end; it is at most the nominal end
exactly on the two tiers with at least 60 elapsed days, while below 60
elapsed days it equals end plus one day, exceeding the nominal end. -/
theorem c4_shifted_start_bounds (s e : ℤ) (h : s < e) :
    s ≤ (prepWindows s e).shiftedStart
    ∧ (prepWindows s e).shiftedStart ≤ (prepWindows s e).adjustedEnd
    ∧ (60 ≤ e - s → (prepWindows s e).shiftedStart ≤ e)
    ∧ (e - s < 60 → (prepWindows s e).shiftedStart = e + 1) := by
  unfold prepWindows
  split_ifs with h1 h2 <;>
    refine ⟨?_, ?_, fun hd => ?_, fun hd => ?_⟩ <;>
    dsimp only <;> omega

/-- Witness for c4_shifted_start_bounds at concrete inputs. -/
theorem c4_shifted_start_bounds_witness :
    (0 : ℤ) < 10
    ∧ (0 ≤ (prepWindows 0 10).shiftedStart
      ∧ (prepWindows 0 10).shiftedStart ≤ (prepWindows 0 10).adjustedEnd
      ∧ (60 ≤ (10 : ℤ) - 0 → (prepWindows 0 10).shiftedStart ≤ 10)
      ∧ ((10 : ℤ) - 0 < 60 → (prepWindows 0 10).shiftedStart = 10 + 1)) :=
  ⟨by decide, c4_shifted_start_bounds 0 10 (by decide)⟩

/-- C6: the assembler band order, the Band Catalogue order, and the
raster-to-table column order agree entry by entry over all 14 entries. -/
theorem c6_band_order_round_trip :
    assemblerBandOrder = bandCatalogueSpec
    ∧ colNames = bandCatalogueSpec
    ∧ bandCatalogueSpec.length = 14
    ∧ ∀ i : ℕ, colNames.getD i "" = assemblerBandOrder.getD i "" :=
  ⟨rfl, rfl, rfl, fun _ => rfl⟩

/-- fillna preserves column length. -/
theorem fillna_length (c : List (Option ℚ)) : (fillna c).length = c.length := by
  unfold fillna
  cases meanOpt c <;> simp

/-- round2Col preserves column length. -/
theorem round2Col_length (c : List (Option ℚ)) :
    (round2Col c).length = c.length := by
  simp [round2Col]

/-- The repair pass preserves column length. -/
theorem repairBS_length (rng : ℕ → Fin 5) :
    ∀ (k : ℕ) (c : List (Option ℚ)), (repairBS rng k c).length = c.length := by
  intro k c
  induction c generalizing k with
  | nil => rfl
  | cons x xs ih =>
    cases x with
    | none => simp [repairBS, ih]
    | some v => by_cases h : v ≤ 0 <;> simp [repairBS, h, ih]

/-- The repair pass neither removes nor introduces missing entries. -/
theorem repairBS_none_mem (rng : ℕ → Fin 5) :
    ∀ (k : ℕ) (c : List (Option ℚ)),
      none ∈ repairBS rng k c ↔ none ∈ c := by
  intro k c
  induction c generalizing k with
  | nil => simp [repairBS]
  | cons x xs ih =>
    cases x with
    | none => simp [repairBS, ih]
    | some v => by_cases h : v ≤ 0 <;> simp [repairBS, h, ih]

/-- The repair pass is the identity on a column with only positive
present entries. -/
theorem repairBS_id (rng : ℕ → Fin 5) :
    ∀ (k : ℕ) (c : List (Option ℚ)),
      (∀ v : ℚ, some v ∈ c → 0 < v) → repairBS rng k c = c := by
  intro k c
  induction c generalizing k with
  | nil => intro _; rfl
  | cons x xs ih =>
    intro hc
    cases x with
    | none =>
      simp only [repairBS]
      exact congrArg _ (ih k (fun v hv => hc v (by simp [hv])))
    | some v =>
      have hv : 0 < v := hc v (by simp)
      simp only [repairBS, if_neg (by linarith : ¬ v ≤ 0)]
      exact congrArg _ (ih k (fun u hu => hc u (by simp [hu])))

/-- Present values after the repair pass: if every present input entry is
at most 0 or in the half-open interval from one to six, then every present
output entry is in that interval. -/
theorem repairBS_values (rng : ℕ → Fin 5) :
    ∀ (k : ℕ) (c : List (Option ℚ)),
      (∀ v : ℚ, some v ∈ c → v ≤ 0 ∨ (1 ≤ v ∧ v < 6)) →
      ∀ w : ℚ, some w ∈ repairBS rng k c → 1 ≤ w ∧ w < 6 := by
  intro k c
  induction c generalizing k with
  | nil => intro _ w hw; simp [repairBS] at hw
  | cons x xs ih =>
    intro hc w hw
    cases x with
    | none =>
      simp only [repairBS, List.mem_cons] at hw
      rcases hw with hw | hw
      · exact absurd hw (by simp)
      · exact ih k (fun v hv => hc v (by simp [hv])) w hw
    | some v =>
      by_cases h0 : v ≤ 0
      · simp only [repairBS, if_pos h0, List.mem_cons, Option.some.injEq] at hw
        rcases hw with hw | hw
        · have h4 : ((rng k : ℕ) : ℚ) ≤ 4 := by
            exact_mod_cast Nat.lt_succ_iff.mp (rng k).isLt
          have h02 : (0 : ℚ) ≤ ((rng k : ℕ) : ℚ) := Nat.cast_nonneg _
          constructor <;> rw [hw] <;> linarith
        · exact ih (k + 1) (fun u hu => hc u (by simp [hu])) w hw
      · simp only [repairBS, if_neg h0, List.mem_cons, Option.some.injEq] at hw
        rcases hw with hw | hw
        · rcases hc v (by simp) with h | h
          · exact absurd h h0
          · rw [hw]; exact h
        · exact ih k (fun u hu => hc u (by simp [hu])) w hw

/-- A column accepted by the int cast keeps its length. -/
theorem astypeCol_length :
    ∀ {c : List (Option ℚ)} {l : List ℤ},
      astypeCol c = some l → l.length = c.length := by
  intro c
  induction c with
  | nil => intro l h; simp [astypeCol] at h; simp [← h]
  | cons x xs ih =>
    intro l h
    cases x with
    | none => simp [astypeCol] at h
    | some v =>
      simp only [astypeCol, Option.map_eq_some'] at h
      obtain ⟨l2, hx, rfl⟩ := h
      simp [ih hx]

/-- A column accepted by the int cast has no missing entry. -/
theorem astypeCol_no_none :
    ∀ {c : List (Option ℚ)} {l : List ℤ},
      astypeCol c = some l → none ∉ c := by
  intro c
  induction c with
  | nil => intro l _; simp
  | cons x xs ih =>
    intro l h
    cases x with
    | none => simp [astypeCol] at h
    | some v =>
      simp only [astypeCol, Option.map_eq_some'] at h
      obtain ⟨l2, hx, rfl⟩ := h
      simp [ih hx]

/-- Every value of a cast column is the truncation of a present entry of
the source column. -/
theorem astypeCol_values :
    ∀ {c : List (Option ℚ)} {l : List ℤ},
      astypeCol c = some l →
      ∀ z ∈ l, ∃ v : ℚ, some v ∈ c ∧ z = truncQ v := by
  intro c
  induction c with
  | nil =>
    intro l h
    simp only [astypeCol, Option.some.injEq] at h
    subst h
    simp
  | cons x xs ih =>
    intro l h
    cases x with
    | none => simp [astypeCol] at h
    | some v =>
      simp only [astypeCol, Option.map_eq_some'] at h
      obtain ⟨l2, hx, rfl⟩ := h
      intro z hz
      rcases List.mem_cons.mp hz with hz | hz
      · exact ⟨v, by simp, hz⟩
      · obtain ⟨u, hu, hzu⟩ := ih hx z hz
        exact ⟨u, by simp [hu], hzu⟩

/-- Every column of a table accepted by the int cast was itself accepted. -/
theorem astypeTable_forall :
    ∀ {cols : List (List (Option ℚ))} {t : List (List ℤ)},
      astypeTable cols = some t →
      ∀ c ∈ cols, ∃ l, astypeCol c = some l := by
  intro cols
  induction cols with
  | nil => intro t _; simp
  | cons c cs ih =>
    intro t h
    cases hx : astypeCol c with
    | none => rw [astypeTable, hx] at h; simp at h
    | some l =>
      rw [astypeTable, hx] at h
      simp only [Option.map_eq_some'] at h
      obtain ⟨t2, ht2, rfl⟩ := h
      intro c2 hc2
      rcases List.mem_cons.mp hc2 with rfl | hc2
      · exact ⟨l, hx⟩
      · exact ih ht2 c2 hc2

/-- Every column of the cast table is the cast of a source column. -/
theorem astypeTable_mem :
    ∀ {cols : List (List (Option ℚ))} {t : List (List ℤ)},
      astypeTable cols = some t →
      ∀ l ∈ t, ∃ c ∈ cols, astypeCol c = some l := by
  intro cols
  induction cols with
  | nil =>
    intro t h
    simp only [astypeTable, Option.some.injEq] at h
    simp [← h]
  | cons c cs ih =>
    intro t h
    cases hx : astypeCol c with
    | none => rw [astypeTable, hx] at h; simp at h
    | some l =>
      rw [astypeTable, hx] at h
      simp only [Option.map_eq_some'] at h
      obtain ⟨t2, ht2, rfl⟩ := h
      intro l2 hl2
      rcases List.mem_cons.mp hl2 with rfl | hl2
      · exact ⟨c, by simp, hx⟩
      · obtain ⟨c2, hc2, hcl⟩ := ih ht2 l2 hl2
        exact ⟨c2, by simp [hc2], hcl⟩

/-- Columnwise reading of the cast table by index. -/
theorem astypeTable_getD :
    ∀ {cols : List (List (Option ℚ))} {t : List (List ℤ)},
      astypeTable cols = some t →
      ∀ j : ℕ, j < cols.length →
        astypeCol (cols.getD j []) = some (t.getD j []) := by
  intro cols
  induction cols with
  | nil => intro t _ j hj; simp at hj
  | cons c cs ih =>
    intro t h j hj
    cases hx : astypeCol c with
    | none => rw [astypeTable, hx] at h; simp at h
    | some l =>
      rw [astypeTable, hx] at h
      simp only [Option.map_eq_some'] at h
      obtain ⟨t2, ht2, rfl⟩ := h
      cases j with
      | zero => simpa using hx
      | succ j =>
        simp only [List.getD_cons_succ]
        exact ih ht2 j (by simpa using hj)

/-- The columnwise repair preserves the number of columns. -/
theorem repairColsAux_length (rng : ℕ → Fin 5) :
    ∀ (i : ℕ) (cols : List (List (Option ℚ))),
      (repairColsAux rng i cols).length = cols.length := by
  intro i cols
  induction cols generalizing i with
  | nil => rfl
  | cons c cs ih => simp [repairColsAux, ih]

/-- Every repaired column is an original column or the repair of one. -/
theorem repairColsAux_mem (rng : ℕ → Fin 5) :
    ∀ (i : ℕ) (cols : List (List (Option ℚ))) (c2 : List (Option ℚ)),
      c2 ∈ repairColsAux rng i cols →
      c2 ∈ cols ∨ ∃ c ∈ cols, c2 = repairBS rng 0 c := by
  intro i cols
  induction cols generalizing i with
  | nil => intro c2 h; simp [repairColsAux] at h
  | cons c cs ih =>
    intro c2 h
    simp only [repairColsAux, List.mem_cons] at h
    rcases h with h | h
    · by_cases h7 : i = 7
      · rw [if_pos h7] at h
        exact Or.inr ⟨c, by simp, h⟩
      · rw [if_neg h7] at h
        exact Or.inl (by simp [h])
    · rcases ih (i + 1) c2 h with h2 | ⟨c3, hc3, he⟩
      · exact Or.inl (by simp [h2])
      · exact Or.inr ⟨c3, by simp [hc3], he⟩

/-- A property of all repaired columns transfers to every original column,
either directly or through its repair. -/
theorem repairColsAux_transfer (rng : ℕ → Fin 5)
    (P : List (Option ℚ) → Prop) :
    ∀ (i : ℕ) (cols : List (List (Option ℚ))),
      (∀ c2 ∈ repairColsAux rng i cols, P c2) →
      ∀ c ∈ cols, P c ∨ P (repairBS rng 0 c) := by
  intro i cols
  induction cols generalizing i with
  | nil => intro _ c hc; simp at hc
  | cons c0 cs ih =>
    intro hall c hc
    rcases List.mem_cons.mp hc with rfl | hc
    · have hmem : (if i = 7 then repairBS rng 0 c else c)
          ∈ repairColsAux rng i (c :: cs) := by
        simp [repairColsAux]
      have hP := hall _ hmem
      by_cases h7 : i = 7
      · rw [if_pos h7] at hP
        exact Or.inr hP
      · rw [if_neg h7] at hP
        exact Or.inl hP
    · exact ih (i + 1) (fun c2 hc2 => hall c2 (by simp [repairColsAux, hc2]))
        c hc

/-- Reading the repaired table by index: only the column at overall
position 7 is repaired. -/
theorem repairColsAux_getD (rng : ℕ → Fin 5) :
    ∀ (cols : List (List (Option ℚ))) (i j : ℕ), j < cols.length →
      (repairColsAux rng i cols).getD j []
        = if i + j = 7 then repairBS rng 0 (cols.getD j []) else cols.getD j [] := by
  intro cols
  induction cols with
  | nil => intro i j hj; simp at hj
  | cons c cs ih =>
    intro i j hj
    cases j with
    | zero => simp [repairColsAux]
    | succ j =>
      simp only [repairColsAux, List.getD_cons_succ]
      rw [ih (i + 1) j (by simpa using hj)]
      have he : i + 1 + j = i + (j + 1) := by omega
      rw [he]

/-- The repair step leaves a table alone above column index 7. -/
theorem repairColsAux_gt (rng : ℕ → Fin 5) :
    ∀ (cols : List (List (Option ℚ))) (i : ℕ), 7 < i →
      repairColsAux rng i cols = cols := by
  intro cols
  induction cols with
  | nil => intro i _; rfl
  | cons c cs ih =>
    intro i hi
    simp only [repairColsAux, if_neg (by omega : ¬ i = 7)]
    exact congrArg _ (ih (i + 1) (by omega))

/-- The repair step is the identity when the column at overall position 7
has only positive present entries. -/
theorem repairColsAux_id (rng : ℕ → Fin 5) :
    ∀ (cols : List (List (Option ℚ))) (i : ℕ), i ≤ 7 →
      (∀ v : ℚ, some v ∈ cols.getD (7 - i) [] → 0 < v) →
      repairColsAux rng i cols = cols := by
  intro cols
  induction cols with
  | nil => intro i _ _; rfl
  | cons c cs ih =>
    intro i hi hpos
    by_cases h7 : i = 7
    · subst h7
      simp only [repairColsAux]
      rw [if_pos trivial, repairBS_id rng 0 c (by simpa using hpos),
          repairColsAux_gt rng cs (7 + 1) (by omega)]
    · simp only [repairColsAux, if_neg h7]
      refine congrArg _ (ih (i + 1) (by omega) ?_)
      have he : 7 - i = (7 - (i + 1)) + 1 := by omega
      rw [he] at hpos
      simpa using hpos

/-- Bounds of the truncation toward zero on the interval one to six. -/
theorem truncQ_bound (v : ℚ) (h1 : 1 ≤ v) (h6 : v < 6) :
    1 ≤ truncQ v ∧ truncQ v ≤ 5 := by
  unfold truncQ
  rw [if_pos (by linarith : (0:ℚ) ≤ v)]
  refine ⟨Int.le_floor.mpr (by exact_mod_cast h1), ?_⟩
  have : ⌊v⌋ < 6 := Int.floor_lt.mpr (by exact_mod_cast h6)
  omega

/-- Length of a mean-imputed, rounded column. -/
theorem imputeRound_mem_length (bands : List (List (Option ℚ))) (n : ℕ)
    (hlen : ∀ b ∈ bands, b.length = n) :
    ∀ c ∈ imputeRound bands, c.length = n := by
  intro c hc
  obtain ⟨b, hb, rfl⟩ := List.mem_map.mp hc
  rw [round2Col_length, fillna_length]
  exact hlen b hb

/-- A constant band of three present pixels for the C5 counterexample. -/
def cexCol : List (Option ℚ) := [some 1, some 1, some 1]

/-- Concrete raster for the C5 counterexample: one row of three pixels;
the burnSeverity band holds 0, 1 and a missing pixel, every other band is
constantly 1. Mean-imputation writes the column mean one half into the
missing pixel; one half escapes the at-most-0 repair and the int cast
truncates it to 0. -/
def cexBands : List (List (Option ℚ)) :=
  [cexCol, cexCol, cexCol, cexCol, cexCol, cexCol, cexCol,
   [some 0, some 1, none],
   cexCol, cexCol, cexCol, cexCol, cexCol, cexCol]

/-- A fixed stream of draws (class 3) for the C5 counterexample. -/
def cexRng : ℕ → Fin 5 := fun _ => 2

/-- C5 counterexample: a 1 by 3 raster with 14 bands that the converter
accepts whose resulting burn-severity column contains the value 0, outside
the claimed class range one to five. -/
theorem c5_counterexample :
    cexBands.length = 14
    ∧ (∀ c ∈ cexBands, c.length = 1 * 3)
    ∧ (toTable cexRng cexBands).isSome = true
    ∧ ∃ z ∈ ((toTable cexRng cexBands).getD []).getD 7 [],
        ¬(1 ≤ z ∧ z ≤ 5) := by
  with_unfolding_all decide

/-- C5 (amended): on every accepted run, every column of the table has
H times W rows and no column has a missing value after mean-imputation;
the burn-severity column is confined to integer classes one to five
provided every entry of that column after imputation and rounding is
either at most 0 (hence repaired to a random class) or in the half-open
interval from one to six (hence truncated into one to five); without that
proviso an imputed fractional value strictly between 0 and 1 escapes the
repair and truncates to 0. -/
theorem c5_table_shape (rng : ℕ → Fin 5) (H W : ℕ)
    (bands : List (List (Option ℚ))) (t : List (List ℤ))
    (h14 : bands.length = 14)
    (hlen : ∀ c ∈ bands, c.length = H * W)
    (ht : toTable rng bands = some t) :
    (∀ c ∈ t, c.length = H * W)
    ∧ (∀ c ∈ imputeRound bands, none ∉ c)
    ∧ ((∀ v : ℚ, some v ∈ (imputeRound bands).getD 7 [] →
          v ≤ 0 ∨ (1 ≤ v ∧ v < 6)) →
        ∀ z ∈ t.getD 7 [], 1 ≤ z ∧ z ≤ 5) := by
  have hcols : ∀ c ∈ imputeRound bands, c.length = H * W :=
    imputeRound_mem_length bands (H * W) hlen
  have ht2 : astypeTable (repairColsAux rng 0 (imputeRound bands)) = some t := ht
  have hlen14 : (imputeRound bands).length = 14 := by
    simp [imputeRound, h14]
  refine ⟨?_, ?_, ?_⟩
  · intro c hc
    obtain ⟨c2, hc2, hcast⟩ := astypeTable_mem ht2 c hc
    have hlen2 : c.length = c2.length := astypeCol_length hcast
    rcases repairColsAux_mem rng 0 _ c2 hc2 with hm | ⟨c3, hc3, rfl⟩
    · rw [hlen2]; exact hcols c2 hm
    · rw [hlen2, repairBS_length]; exact hcols c3 hc3
  · intro c hc hnone
    have htr := repairColsAux_transfer rng
      (fun c2 => ∃ l, astypeCol c2 = some l) 0 (imputeRound bands)
      (astypeTable_forall ht2) c hc
    rcases htr with ⟨l, hl⟩ | ⟨l, hl⟩
    · exact astypeCol_no_none hl hnone
    · exact astypeCol_no_none hl ((repairBS_none_mem rng 0 c).mpr hnone)
  · intro hdom z hz
    have hget := astypeTable_getD ht2 7
      (by rw [repairColsAux_length, hlen14]; omega)
    rw [repairColsAux_getD rng (imputeRound bands) 0 7
      (by rw [hlen14]; omega)] at hget
    rw [if_pos (show 0 + 7 = 7 from rfl)] at hget
    obtain ⟨v, hv, rfl⟩ := astypeCol_values hget z hz
    have hb := repairBS_values rng 0 _ hdom v hv
    exact truncQ_bound v hb.1 hb.2

/-- A concrete accepted raster of one pixel, all 14 bands present with
value 2, used by the converter witnesses. -/
def wBands : List (List (Option ℚ)) := List.replicate 14 [some 2]

/-- The table resulting from wBands. -/
def wTable : List (List ℤ) := List.replicate 14 [2]

/-- Witness for c5_table_shape at a concrete accepted raster. -/
theorem c5_table_shape_witness :
    (wBands.length = 14
      ∧ (∀ c ∈ wBands, c.length = 1 * 1)
      ∧ toTable (fun _ => 0) wBands = some wTable)
    ∧ ((∀ c ∈ wTable, c.length = 1 * 1)
      ∧ (∀ c ∈ imputeRound wBands, none ∉ c)
      ∧ ((∀ v : ℚ, some v ∈ (imputeRound wBands).getD 7 [] →
            v ≤ 0 ∨ (1 ≤ v ∧ v < 6)) →
          ∀ z ∈ wTable.getD 7 [], 1 ≤ z ∧ z ≤ 5)) :=
  ⟨⟨by with_unfolding_all decide, by with_unfolding_all decide,
    by with_unfolding_all decide⟩,
   c5_table_shape (fun _ => 0) 1 1 wBands wTable
     (by with_unfolding_all decide) (by with_unfolding_all decide)
     (by with_unfolding_all decide)⟩

/-- A one-pixel raster whose burnSeverity band value 0 triggers the
repair pass, for the nondeterminism half of C10. -/
def detBands : List (List (Option ℚ)) :=
  List.replicate 7 [some 1] ++ [[some 0]] ++ List.replicate 6 [some 1]

/-- C10: the conversion is deterministic exactly when no repair is
triggered: whenever every burn-severity entry after imputation and
rounding is positive, the resulting table does not depend on the random
stream; and there is a raster on which two random streams give two
different tables. -/
theorem c10_conversion_determinism :
    (∀ (bands : List (List (Option ℚ))) (rng1 rng2 : ℕ → Fin 5),
        (∀ x ∈ (imputeRound bands).getD 7 [], 0 < x.getD 1) →
        toTable rng1 bands = toTable rng2 bands)
    ∧ ∃ (bands : List (List (Option ℚ))) (rng1 rng2 : ℕ → Fin 5),
        toTable rng1 bands ≠ toTable rng2 bands := by
  constructor
  · intro bands rng1 rng2 hpos
    have hpos2 : ∀ v : ℚ,
        some v ∈ (imputeRound bands).getD (7 - 0) [] → 0 < v := by
      intro v hv
      simpa using hpos (some v) hv
    unfold toTable repairCols
    rw [repairColsAux_id rng1 (imputeRound bands) 0 (by omega) hpos2,
        repairColsAux_id rng2 (imputeRound bands) 0 (by omega) hpos2]
  · exact ⟨detBands, fun _ => 0, fun _ => 1, by with_unfolding_all decide⟩

/-- Witness for the deterministic half of c10_conversion_determinism. -/
theorem c10_conversion_determinism_witness :
    (∀ x ∈ (imputeRound wBands).getD 7 [], 0 < x.getD 1)
    ∧ toTable (fun _ => 3) wBands = toTable (fun _ => 4) wBands :=
  ⟨by with_unfolding_all decide,
   c10_conversion_determinism.1 wBands (fun _ => 3) (fun _ => 4)
     (by with_unfolding_all decide)⟩

/-- The sorted distinct labels appearing in reference or predictions: the
label vocabulary sklearn confusion_matrix uses in modelMetrics, where no
explicit labels argument is passed. -/
def presentLabels (labels predictions : List ℤ) : List ℤ :=
  (labels ++ predictions).toFinset.sort (· ≤ ·)

/-- Number of positions whose reference label is a and predicted label b. -/
def countPair (labels predictions : List ℤ) (a b : ℤ) : ℕ :=
  ((labels.zip predictions).filter (fun q => q.1 = a ∧ q.2 = b)).length

/-- The count matrix of modelMetrics before margins: one row and one
column per present label, in sorted order. -/
def confusionMatrix (labels predictions : List ℤ) : List (List ℕ) :=
  (presentLabels labels predictions).map (fun a =>
    (presentLabels labels predictions).map (fun b =>
      countPair labels predictions a b))

/-- Column sum of the count matrix at label index i: np.sum of axis 0. -/
def colSumAt (labels predictions : List ℤ) (i : ℕ) : ℕ :=
  ((presentLabels labels predictions).map (fun a =>
    countPair labels predictions a
      ((presentLabels labels predictions).getD i 0))).sum

/-- Row sum of the count matrix at label index i: np.sum of axis 1. -/
def rowSumAt (labels predictions : List ℤ) (i : ℕ) : ℕ :=
  ((presentLabels labels predictions).map (fun b =>
    countPair labels predictions
      ((presentLabels labels predictions).getD i 0) b)).sum

/-- Diagonal entry of the count matrix at label index i. -/
def diagAt (labels predictions : List ℤ) (i : ℕ) : ℕ :=
  countPair labels predictions
    ((presentLabels labels predictions).getD i 0)
    ((presentLabels labels predictions).getD i 0)

/-- Precision of the class at index i as numpy divides it: diagonal over
column sum, nan (none) when the column sum is 0. -/
def precisionOpt (labels predictions : List ℤ) (i : ℕ) : Option ℚ :=
  if colSumAt labels predictions i = 0 then none
  else some ((diagAt labels predictions i : ℚ)
    / (colSumAt labels predictions i : ℚ))

/-- Recall of the class at index i: diagonal over row sum, nan (none)
when the row sum is 0. -/
def recallOpt (labels predictions : List ℤ) (i : ℕ) : Option ℚ :=
  if rowSumAt labels predictions i = 0 then none
  else some ((diagAt labels predictions i : ℚ)
    / (rowSumAt labels predictions i : ℚ))

/-- F1 of the class at index i, from the unrounded precision and recall:
nan propagates, and a 0 over 0 ratio is again nan. -/
def f1Opt (labels predictions : List ℤ) (i : ℕ) : Option ℚ :=
  match precisionOpt labels predictions i, recallOpt labels predictions i with
  | some p, some r => if p + r = 0 then none else some (2 * (p * r) / (p + r))
  | _, _ => none

/-- Displayed precision: scaled to percent, rounded to two decimals, with
nan filled by 0 at the end of modelMetrics. -/
def precisionPct (labels predictions : List ℤ) (i : ℕ) : ℚ :=
  ((precisionOpt labels predictions i).map (fun p => round2 (100 * p))).getD 0

/-- Displayed recall: percent, two decimals, nan filled by 0. -/
def recallPct (labels predictions : List ℤ) (i : ℕ) : ℚ :=
  ((recallOpt labels predictions i).map (fun r => round2 (100 * r))).getD 0

/-- Displayed F1: percent, two decimals, nan filled by 0. -/
def f1Pct (labels predictions : List ℤ) (i : ℕ) : ℚ :=
  ((f1Opt labels predictions i).map (fun f => round2 (100 * f))).getD 0

/-- C2 counterexample: on the spec's own scenario, reference [2,2,3,5] and
predictions [2,3,3,5] (all labels within one to five), the count matrix is
3 by 3 over the present labels, not 5 by 5 over the full domain, and the
absent class 4 has no row at all. -/
theorem c2_counterexample :
    (∀ z ∈ ([2, 2, 3, 5] ++ [2, 3, 3, 5] : List ℤ), 1 ≤ z ∧ z ≤ 5)
    ∧ (confusionMatrix [2, 2, 3, 5] [2, 3, 3, 5]).length ≠ 5
    ∧ (confusionMatrix [2, 2, 3, 5] [2, 3, 3, 5]).length = 3
    ∧ (4 : ℤ) ∉ presentLabels [2, 2, 3, 5] [2, 3, 3, 5] := by
  with_unfolding_all decide

/-- C2 (amended): the Metrics Engine builds its count matrix over the
sorted distinct labels actually present in reference or predictions, one
row and one column per present label; a class absent from both sequences
is omitted entirely rather than given zero metrics; and a present class
whose column (row) sum is 0 has its undefined precision (recall) and F1
coerced to 0 by the final fill. -/
theorem c2_metrics_domain (labels predictions : List ℤ) :
    ((confusionMatrix labels predictions).length
      = (presentLabels labels predictions).length)
    ∧ (∀ row ∈ confusionMatrix labels predictions,
        row.length = (presentLabels labels predictions).length)
    ∧ (∀ c : ℤ, c ∈ presentLabels labels predictions
        ↔ (c ∈ labels ∨ c ∈ predictions))
    ∧ (∀ i : ℕ, colSumAt labels predictions i = 0 →
        precisionPct labels predictions i = 0
        ∧ f1Pct labels predictions i = 0)
    ∧ (∀ i : ℕ, rowSumAt labels predictions i = 0 →
        recallPct labels predictions i = 0
        ∧ f1Pct labels predictions i = 0) := by
  refine ⟨?_, ?_, ?_, ?_, ?_⟩
  · simp [confusionMatrix]
  · intro row hrow
    obtain ⟨a, _, rfl⟩ := List.mem_map.mp hrow
    simp
  · intro c
    simp [presentLabels, Finset.mem_sort, List.mem_toFinset]
  · intro i h
    have hp : precisionOpt labels predictions i = none := by
      simp [precisionOpt, h]
    constructor
    · simp [precisionPct, hp]
    · simp [f1Pct, f1Opt, hp]
  · intro i h
    have hr : recallOpt labels predictions i = none := by
      simp [recallOpt, h]
    constructor
    · simp [recallPct, hr]
    · cases hp : precisionOpt labels predictions i <;>
        simp [f1Pct, f1Opt, hp, hr]

/-- Witness for c2_metrics_domain: with reference [1, 1] and predictions
[2, 2] the class 1 is never predicted, so its column sum is 0 and its
displayed precision and F1 are 0. -/
theorem c2_metrics_domain_witness :
    colSumAt [1, 1] [2, 2] 0 = 0
    ∧ (precisionPct [1, 1] [2, 2] 0 = 0 ∧ f1Pct [1, 1] [2, 2] 0 = 0) :=
  ⟨by with_unfolding_all decide,
   (c2_metrics_domain [1, 1] [2, 2]).2.2.2.1 0 (by with_unfolding_all decide)⟩

/-- The two filesystem paths downloadRaster touches: raster.tif and
raster.zip (the same fixed names on every attempt). -/
structure Disk where
  tif : Bool
  zipf : Bool
deriving DecidableEq

/-- Outcome of one ee_export_image attempt, as driven by the environment:
the download URL request may raise (early return before any write), the
HTTP status may differ from 200 (early return), the streamed GET itself
may raise (the handler then dereferences the unbound response and the
error propagates out), the zip may be written but fail to extract, or the
attempt fully succeeds. -/
inductive AttemptOutcome
  | urlError
  | httpError
  | fetchRaised
  | corruptZip
  | ok
deriving DecidableEq

/-- Effect of one ee_export_image call on the disk: nothing is written
unless the zip download completes; a written zip whose extraction fails
stays on disk, because os.remove of the zip only follows a successful
extractall; on success the extracted raster exists and the zip is
removed. -/
def eeExportImage (d : Disk) : AttemptOutcome → Disk
  | .urlError => d
  | .httpError => d
  | .fetchRaised => d
  | .corruptZip => { d with zipf := true }
  | .ok => { tif := true, zipf := false }

/-- User-facing outcome of downloadRaster. -/
inductive ExportResult
  | noImagery
  | exceeded
  | success
deriving DecidableEq

/-- The retry ladder of downloadRaster: run the attempts in candidate
order, stopping after the first one that leaves raster.tif on disk
(every exception inside the loop is swallowed by the continue); returns
the final disk and the number of attempts made. -/
def runLadder (d : Disk) : List AttemptOutcome → Disk × ℕ
  | [] => (d, 0)
  | a :: rest =>
    let d2 := eeExportImage d a
    if d2.tif then (d2, 1)
    else
      let r := runLadder d2 rest
      (r.1, r.2 + 1)

/-- downloadRaster control flow: a failing band enumeration stops before
any attempt with the no-imagery error; otherwise the ladder runs, and the
absence of raster.tif afterwards is the exceeded-limits error. -/
def downloadRasterModel (bandNamesOk : Bool) (d : Disk)
    (attempts : List AttemptOutcome) : ExportResult × Disk × ℕ :=
  if bandNamesOk then
    let r := runLadder d attempts
    if r.1.tif then (.success, r.1, r.2) else (.exceeded, r.1, r.2)
  else (.noImagery, d, 0)

/-- An attempt other than a full success never creates raster.tif. -/
theorem eeExportImage_tif_false (d : Disk) (a : AttemptOutcome)
    (hd : d.tif = false) (ha : a ≠ AttemptOutcome.ok) :
    (eeExportImage d a).tif = false := by
  cases a <;> simp_all [eeExportImage]

/-- The ladder produces raster.tif exactly when some attempt succeeds,
and it runs attempts up to and including the first success. -/
theorem runLadder_spec :
    ∀ (attempts : List AttemptOutcome) (d : Disk), d.tif = false →
      (((runLadder d attempts).1.tif = true)
        ↔ ∃ a ∈ attempts, a = AttemptOutcome.ok)
      ∧ (runLadder d attempts).2
          = min (attempts.findIdx (· == AttemptOutcome.ok) + 1)
              attempts.length := by
  intro attempts
  induction attempts with
  | nil =>
    intro d hd
    exact ⟨by simp [runLadder, hd], by simp [runLadder]⟩
  | cons a rest ih =>
    intro d hd
    by_cases ha : a = AttemptOutcome.ok
    · subst ha
      constructor
      · simp [runLadder, eeExportImage]
      · simp only [runLadder, eeExportImage]
        rw [List.findIdx_cons]
        simp
    · have hd2 : (eeExportImage d a).tif = false :=
        eeExportImage_tif_false d a hd ha
      have hrec := ih (eeExportImage d a) hd2
      have heq : runLadder d (a :: rest)
          = ((runLadder (eeExportImage d a) rest).1,
             (runLadder (eeExportImage d a) rest).2 + 1) := by
        simp [runLadder, hd2]
      constructor
      · rw [heq]
        dsimp only
        rw [hrec.1]
        constructor
        · rintro ⟨x, hx, hxo⟩
          exact ⟨x, List.mem_cons_of_mem _ hx, hxo⟩
        · rintro ⟨x, hx, hxo⟩
          rcases List.mem_cons.mp hx with hxa | hx2
          · exact absurd (hxa ▸ hxo) ha
          · exact ⟨x, hx2, hxo⟩
      · rw [heq]
        dsimp only
        rw [hrec.2, List.findIdx_cons]
        have hba : (a == AttemptOutcome.ok) = false := by
          simp [ha]
        rw [hba]
        simp only [cond_false, List.length_cons]
        omega

/-- C8: the exporter fails fast with the no-imagery error, making no
attempt, exactly when band enumeration fails; otherwise it runs the
candidate scales in order up to and including the first success, and
reports the exceeded-limits error exactly when no candidate produces the
raster file. -/
theorem c8_exporter_failures (bandNamesOk : Bool) (d : Disk)
    (attempts : List AttemptOutcome) (hd : d.tif = false) :
    (bandNamesOk = false →
      downloadRasterModel bandNamesOk d attempts
        = (ExportResult.noImagery, d, 0))
    ∧ (bandNamesOk = true →
        ((downloadRasterModel bandNamesOk d attempts).1 = ExportResult.exceeded
          ↔ ∀ a ∈ attempts, a ≠ AttemptOutcome.ok))
    ∧ (bandNamesOk = true →
        ((downloadRasterModel bandNamesOk d attempts).1 = ExportResult.success
          ↔ ∃ a ∈ attempts, a = AttemptOutcome.ok))
    ∧ (bandNamesOk = true →
        (downloadRasterModel bandNamesOk d attempts).2.2
          = min (attempts.findIdx (· == AttemptOutcome.ok) + 1)
              attempts.length) := by
  cases bandNamesOk with
  | false =>
    exact ⟨fun _ => rfl, fun hb => absurd hb (by simp),
      fun hb => absurd hb (by simp), fun hb => absurd hb (by simp)⟩
  | true =>
    have hs := runLadder_spec attempts d hd
    refine ⟨fun hb => absurd hb (by simp), fun _ => ?_, fun _ => ?_,
      fun _ => ?_⟩
    · by_cases htif : (runLadder d attempts).1.tif
      · have hres : (downloadRasterModel true d attempts).1
            = ExportResult.success := by
          simp [downloadRasterModel, htif]
        rw [hres]
        obtain ⟨x, hx, hxo⟩ := hs.1.mp htif
        constructor
        · intro hco; cases hco
        · intro hall; exact absurd hxo (hall x hx)
      · have hres : (downloadRasterModel true d attempts).1
            = ExportResult.exceeded := by
          simp [downloadRasterModel, htif]
        rw [hres]
        constructor
        · intro _ x hx hxo
          exact htif (hs.1.mpr ⟨x, hx, hxo⟩)
        · intro _; rfl
    · by_cases htif : (runLadder d attempts).1.tif
      · have hres : (downloadRasterModel true d attempts).1
            = ExportResult.success := by
          simp [downloadRasterModel, htif]
        rw [hres]
        simp only [true_iff]
        exact hs.1.mp htif
      · have hres : (downloadRasterModel true d attempts).1
            = ExportResult.exceeded := by
          simp [downloadRasterModel, htif]
        rw [hres]
        constructor
        · intro hco; cases hco
        · intro hex; exact absurd (hs.1.mpr hex) htif
    · have hcount : (downloadRasterModel true d attempts).2.2
          = (runLadder d attempts).2 := by
        by_cases htif : (runLadder d attempts).1.tif <;>
          simp [downloadRasterModel, htif]
      rw [hcount, hs.2]

/-- Witness for c8_exporter_failures: failing band enumeration returns the
no-imagery error with zero attempts made. -/
theorem c8_exporter_failures_witness :
    downloadRasterModel false ⟨false, false⟩
      [AttemptOutcome.corruptZip, AttemptOutcome.ok]
      = (ExportResult.noImagery, ⟨false, false⟩, 0) :=
  (c8_exporter_failures false ⟨false, false⟩
    [AttemptOutcome.corruptZip, AttemptOutcome.ok] rfl).1 rfl

/-- C9 counterexample: a run whose three attempts all download a zip that
fails to extract ends in the exceeded-limits error with raster.zip still
on disk, so a failed attempt does leave a zip artifact behind. -/
theorem c9_counterexample :
    (eeExportImage ⟨false, false⟩ AttemptOutcome.corruptZip).zipf = true
    ∧ downloadRasterModel true ⟨false, false⟩
        [AttemptOutcome.corruptZip, AttemptOutcome.corruptZip,
         AttemptOutcome.corruptZip]
      = (ExportResult.exceeded, ⟨false, true⟩, 3) := by
  exact ⟨rfl, by decide⟩

/-- C9 (amended): a successful attempt writes the raster and removes its
zip, and an attempt failing before the download writes nothing; but an
attempt whose zip downloads and whose extraction fails leaves raster.zip
on disk, deleted only if a later attempt at the same fixed path succeeds
and removes it — as in the three-candidate scenario where only the last
succeeds, whose final disk holds exactly the raster. -/
theorem c9_disk_artifacts (d : Disk) :
    ((eeExportImage d AttemptOutcome.ok).tif = true
      ∧ (eeExportImage d AttemptOutcome.ok).zipf = false)
    ∧ (eeExportImage d AttemptOutcome.corruptZip).zipf = true
    ∧ (eeExportImage d AttemptOutcome.urlError = d
        ∧ eeExportImage d AttemptOutcome.httpError = d
        ∧ eeExportImage d AttemptOutcome.fetchRaised = d)
    ∧ downloadRasterModel true ⟨false, false⟩
        [AttemptOutcome.corruptZip, AttemptOutcome.corruptZip,
         AttemptOutcome.ok]
      = (ExportResult.success, ⟨true, false⟩, 3) :=
  ⟨⟨rfl, rfl⟩, rfl, ⟨rfl, rfl, rfl⟩, by decide⟩
